import Mathlib

/-!
Verification development for the CoM-motion interface of
`include/xpp/zmp/com_motion.h` (xpp/towr).

The header defines the value type `PhaseInfo` with structural equality
operators (embedded below verbatim), and declares the abstract class
`ComMotion`.  The non-virtual helpers `GetDiscretizedGlobalTimes` /
`GetTotalNodes` are implemented in a translation unit that is not part of
the sources at hand, and the remaining operations are pure virtual, so the
corresponding definitions below are modelled from the specification
(doc comments say so explicitly).  Real time is modelled by `ℚ` so that all
definitions are executable and all sample scenarios can be evaluated
exactly.
-/

namespace XppZmp

/-- Phase kinds from the header: `enum PhaseType {kStancePhase=0, kStepPhase, kFlightPhase}`. -/
inductive PhaseType where
  | kStancePhase
  | kStepPhase
  | kFlightPhase
deriving DecidableEq

/-- `PhaseInfo` from the header: a phase type together with a step id
(`id_` is the zero-based index of the current step for a step phase, and the
index of the last completed step for a stance phase, `-1` for the initial
stance). -/
structure PhaseInfo where
  type_ : PhaseType
  id_ : ℤ
deriving DecidableEq

/-- Embeds `operator==(const PhaseInfo&, const PhaseInfo&)` from the header:
`lhs.type_ == rhs.type_ && lhs.id_ == rhs.id_`. -/
def phaseInfoEq (lhs rhs : PhaseInfo) : Bool :=
  lhs.type_ == rhs.type_ && lhs.id_ == rhs.id_

/-- Embeds `operator!=(const PhaseInfo&, const PhaseInfo&)` from the header:
`!(lhs == rhs)`. -/
def phaseInfoNeq (lhs rhs : PhaseInfo) : Bool :=
  !(phaseInfoEq lhs rhs)

/-- Modelled from the spec: `ComMotion::GetDiscretizedGlobalTimes` is declared
in the header but its implementation (`com_motion.cc`) is not among the
sources.  Per the spec the call produces the sequence
`t_0 = 0, t_1 = Δt, …, t_{N-1} = (N-1)·Δt, t_N = T`, a uniform grid except
possibly for a shorter final interval, always containing both endpoints.
The node count `N` is `⌈T/Δt⌉`: this is the unique reading consistent with
the spec's invariant (final gap `≤ Δt`, never greater) and with both of its
scenarios (`T = 1.0, Δt = 0.2 ⇒ 6` nodes; `T = 0.55, Δt = 0.2 ⇒ [0, 0.2,
0.4, 0.55]`); the spec's isolated `floor` phrase contradicts those (see the
treatment of the node-count claim). -/
def GetDiscretizedGlobalTimes (T dt : ℚ) : List ℚ :=
  ((List.range (Int.toNat ⌈T / dt⌉)).map (fun i : ℕ => (i : ℚ) * dt)) ++ [T]

/-- Modelled from the spec: `ComMotion::GetTotalNodes` is declared in the
header but not implemented in the sources at hand; per the spec it is the
number of entries of `GetDiscretizedGlobalTimes()`. -/
def GetTotalNodes (T dt : ℚ) : ℕ :=
  (GetDiscretizedGlobalTimes T dt).length

/-- Modelled from the spec: the error taxonomy of §7 (`DimensionMismatch`,
`OutOfRangeError`, `UnderconstrainedError`); the sources only declare the
interface, so failures are represented explicitly as values. -/
inductive ComError where
  | DimensionMismatch
  | OutOfRangeError
  | UnderconstrainedError
deriving DecidableEq

/-- CoM state at one instant, as in `xpp::utils::Point2d`: position `p`,
velocity `v` and acceleration `a`, each planar. -/
structure Point2d where
  p : ℚ × ℚ
  v : ℚ × ℚ
  a : ℚ × ℚ
deriving DecidableEq

/-- Polynomial evaluation (Horner form): `polyEval [c0, c1, …] t = c0 + c1·t + …`. -/
def polyEval : List ℚ → ℚ → ℚ
  | [], _ => 0
  | c :: rest, t => c + t * polyEval rest t

/-- Helper for `polyDeriv`: multiplies the coefficient of former index `n`
by `n`. -/
def polyDerivAux : ℚ → List ℚ → List ℚ
  | _, [] => []
  | n, c :: rest => n * c :: polyDerivAux (n + 1) rest

/-- Formal derivative of a coefficient list: `[c0, c1, c2, …] ↦ [1·c1, 2·c2, …]`. -/
def polyDeriv : List ℚ → List ℚ
  | [] => []
  | _ :: rest => polyDerivAux 1 rest

/-- Modelled from the spec: a concrete state for the abstract class
`ComMotion`, whose operations are pure virtual in the header and whose
implementations are not among the sources.  The motion is a planar
polynomial trajectory (one of the representation families the spec admits,
`x(t) = …` from coefficients): `k` polynomial coefficients per coordinate,
the flat free-coefficient vector `coefficients` (x-part then y-part), and
the phase/step structure — an initial stance phase followed by `steps.length`
steps, each step phase followed by a stance phase, with the given positive
durations.  `PhaseInfo` ids follow the header's documentation: step `i` has
id `i`, the stance after step `i` has id `i`, the initial stance has id `-1`. -/
structure ComMotionState where
  k : ℕ
  coefficients : List ℚ
  initialStanceDuration : ℚ
  steps : List (ℚ × ℚ)
deriving DecidableEq

/-- The x-coordinate polynomial coefficients (first `k` entries). -/
def coeffX (m : ComMotionState) : List ℚ := m.coefficients.take m.k

/-- The y-coordinate polynomial coefficients (next `k` entries). -/
def coeffY (m : ComMotionState) : List ℚ := (m.coefficients.drop m.k).take m.k

/-- Modelled from the spec: `ComMotion::GetTotalFreeCoeff` (pure virtual) —
the number of free scalar parameters, fixed by the representation. -/
def GetTotalFreeCoeff (m : ComMotionState) : ℕ := 2 * m.k

/-- Modelled from the spec: `ComMotion::GetCoeffients` (pure virtual, name as
in the header) — returns the stored coefficient vector. -/
def GetCoeffients (m : ComMotionState) : List ℚ := m.coefficients

/-- Modelled from the spec: `ComMotion::GetCom` (pure virtual) — evaluates
position, velocity and acceleration of the polynomial representation at a
global time. -/
def GetCom (m : ComMotionState) (t : ℚ) : Point2d where
  p := (polyEval (coeffX m) t, polyEval (coeffY m) t)
  v := (polyEval (polyDeriv (coeffX m)) t, polyEval (polyDeriv (coeffY m)) t)
  a := (polyEval (polyDeriv (polyDeriv (coeffX m))) t,
        polyEval (polyDeriv (polyDeriv (coeffY m))) t)

/-- Result of a mutating call: the state after the call together with the
error surfaced to the caller, if any. -/
structure SetResult where
  state : ComMotionState
  err : Option ComError
deriving DecidableEq

/-- Modelled from the spec: `ComMotion::SetCoefficients` (pure virtual) —
replaces the stored coefficient vector when the length matches
`GetTotalFreeCoeff()`, and otherwise fails with `DimensionMismatch`
leaving the state unchanged. -/
def SetCoefficients (m : ComMotionState) (x : List ℚ) : SetResult :=
  if x.length = GetTotalFreeCoeff m then ⟨{ m with coefficients := x }, none⟩
  else ⟨m, some ComError.DimensionMismatch⟩

/-- Modelled from the spec: `ComMotion::SetEndAtStart` (pure virtual) —
sets the coefficients so that at time `T` the system is at the start
position with zero velocity: the constant terms keep the start position and
all higher coefficients are zeroed.  The polynomial representation always
has enough degrees of freedom for this, so the call never fails. -/
def SetEndAtStart (m : ComMotionState) : SetResult :=
  ⟨{ m with coefficients :=
      (polyEval (coeffX m) 0 :: List.replicate (m.k - 1) 0).take m.k ++
      (polyEval (coeffY m) 0 :: List.replicate (m.k - 1) 0).take m.k },
   none⟩

/-- The internal segmentation of the step list starting at step index `i`:
step phase `i`, then the stance phase after step `i`, then the rest. -/
def stepSegments : ℕ → List (ℚ × ℚ) → List (PhaseInfo × ℚ)
  | _, [] => []
  | i, d :: rest =>
      (⟨PhaseType.kStepPhase, (i : ℤ)⟩, d.1) ::
      (⟨PhaseType.kStancePhase, (i : ℤ)⟩, d.2) :: stepSegments (i + 1) rest

/-- The motion's full internal segmentation: each phase paired with its
duration, starting with the initial stance (id `-1`). -/
def segments (m : ComMotionState) : List (PhaseInfo × ℚ) :=
  (⟨PhaseType.kStancePhase, -1⟩, m.initialStanceDuration) :: stepSegments 0 m.steps

/-- Modelled from the spec: `ComMotion::GetPhases` (pure virtual) — the
ordered sequence of phases covering `[0, T]`, no adjacent duplicates. -/
def GetPhases (m : ComMotionState) : List PhaseInfo :=
  (segments m).map Prod.fst

/-- Modelled from the spec: `ComMotion::GetTotalTime` (pure virtual) — the
total duration `T` of the motion, the sum of all phase durations. -/
def GetTotalTime (m : ComMotionState) : ℚ :=
  ((segments m).map Prod.snd).sum

/-- Looks up the phase active at local time `t` in a segment list: each
phase spans `[start, start + duration)`, the last one also contains its
right endpoint. -/
def phaseAt : List (PhaseInfo × ℚ) → ℚ → PhaseInfo
  | [], _ => ⟨PhaseType.kStancePhase, -1⟩
  | [(p, _)], _ => p
  | (p, d) :: s :: rest, t => if t < d then p else phaseAt (s :: rest) (t - d)

/-- Modelled from the spec: `ComMotion::GetCurrentPhase` (pure virtual) —
the phase active at global time `t`. -/
def GetCurrentPhase (m : ComMotionState) (t : ℚ) : PhaseInfo :=
  phaseAt (segments m) t

/-- Global start time of the `i`-th segment: the sum of the durations of
the segments before it. -/
def startTime (segs : List (PhaseInfo × ℚ)) (i : ℕ) : ℚ :=
  ((segs.take i).map Prod.snd).sum

/-- Global time `t` lies in the time span of the `i`-th segment: spans are
half-open `[start, end)` except that the last span also contains `T`. -/
def inSpanOf (segs : List (PhaseInfo × ℚ)) (i : ℕ) (t : ℚ) : Prop :=
  startTime segs i ≤ t ∧
    (t < startTime segs (i + 1) ∨ (i + 1 = segs.length ∧ t ≤ startTime segs (i + 1)))

/-- Modelled from the spec: the non-virtual helper
`ComMotion::GetDiscretizedGlobalTimes` at the motion level — computed solely
from `GetTotalTime()` and the configured step size. -/
def GetDiscretizedGlobalTimesOf (m : ComMotionState) (dt : ℚ) : List ℚ :=
  GetDiscretizedGlobalTimes (GetTotalTime m) dt

/-- Modelled from the spec: the non-virtual helper `ComMotion::GetTotalNodes`
at the motion level — the number of discretization nodes. -/
def GetTotalNodesOf (m : ComMotionState) (dt : ℚ) : ℕ :=
  (GetDiscretizedGlobalTimesOf m dt).length

/-- A read-only query on a motion object (`GetCurrentPhase` or `GetPhases`). -/
inductive ReadQuery where
  | currentPhase (t : ℚ)
  | phases
deriving DecidableEq

/-- Reply of a read-only query. -/
inductive ReadReply where
  | phase (p : PhaseInfo)
  | phaseList (l : List PhaseInfo)
deriving DecidableEq

/-- Modelled from the spec: executing a read-only call on a motion object.
The call returns its reply together with the observable state after the
call, so that absence of side effects is a provable statement rather than a
convention. -/
def execRead (m : ComMotionState) (q : ReadQuery) : ReadReply × ComMotionState :=
  match q with
  | ReadQuery.currentPhase t => (ReadReply.phase (GetCurrentPhase m t), m)
  | ReadQuery.phases => (ReadReply.phaseList (GetPhases m), m)

/-- C8: `operator==` on `PhaseInfo` holds exactly when both `type_` and
`id_` agree, and `operator!=` is the logical negation of `operator==`. -/
theorem phaseInfo_eq_structural_and_neq_negation (a b : PhaseInfo) :
    (phaseInfoEq a b = true ↔ (a.type_ = b.type_ ∧ a.id_ = b.id_)) ∧
    phaseInfoNeq a b = !phaseInfoEq a b ∧
    (phaseInfoNeq a b = true ↔ ¬ phaseInfoEq a b = true) := by
  refine ⟨?_, rfl, ?_⟩
  · simp [phaseInfoEq]
  · simp [phaseInfoNeq]

/-- C3: setting a coefficient vector of the correct length succeeds, and an
immediate `GetCoeffients` returns exactly that vector. -/
theorem setCoefficients_getCoeffients_roundtrip (m : ComMotionState) (x : List ℚ)
    (h : x.length = GetTotalFreeCoeff m) :
    (SetCoefficients m x).err = none ∧
    GetCoeffients (SetCoefficients m x).state = x := by
  simp [SetCoefficients, h, GetCoeffients]

/-- Witness for the round-trip theorem at a concrete state and vector. -/
theorem setCoefficients_getCoeffients_roundtrip_witness :
    ([(2 : ℚ), 3]).length = GetTotalFreeCoeff ⟨1, [0, 0], 1, []⟩ ∧
    ((SetCoefficients ⟨1, [0, 0], 1, []⟩ [(2 : ℚ), 3]).err = none ∧
      GetCoeffients (SetCoefficients ⟨1, [0, 0], 1, []⟩ [(2 : ℚ), 3]).state = [2, 3]) :=
  ⟨rfl, setCoefficients_getCoeffients_roundtrip ⟨1, [0, 0], 1, []⟩ [2, 3] rfl⟩

/-- C4: a coefficient vector of the wrong length makes `SetCoefficients`
fail with `DimensionMismatch` and leaves the observable state — and hence
`GetCoeffients`, `GetPhases` and `GetCom` — unchanged. -/
theorem setCoefficients_wrong_length_fails_state_unchanged
    (m : ComMotionState) (x : List ℚ) (h : x.length ≠ GetTotalFreeCoeff m) :
    (SetCoefficients m x).err = some ComError.DimensionMismatch ∧
    (SetCoefficients m x).state = m ∧
    GetCoeffients (SetCoefficients m x).state = GetCoeffients m ∧
    GetPhases (SetCoefficients m x).state = GetPhases m ∧
    ∀ t, GetCom (SetCoefficients m x).state t = GetCom m t := by
  have hs : SetCoefficients m x = ⟨m, some ComError.DimensionMismatch⟩ := by
    simp [SetCoefficients, h]
  rw [hs]
  exact ⟨rfl, rfl, rfl, rfl, fun _ => rfl⟩

/-- Witness for the dimension-mismatch theorem at a concrete state and a
vector of the wrong length. -/
theorem setCoefficients_wrong_length_fails_witness :
    ([(1 : ℚ)]).length ≠ GetTotalFreeCoeff ⟨1, [0, 0], 1, []⟩ ∧
    (SetCoefficients ⟨1, [0, 0], 1, []⟩ [(1 : ℚ)]).err = some ComError.DimensionMismatch ∧
    (SetCoefficients ⟨1, [0, 0], 1, []⟩ [(1 : ℚ)]).state = ⟨1, [0, 0], 1, []⟩ :=
  ⟨by decide,
   (setCoefficients_wrong_length_fails_state_unchanged ⟨1, [0, 0], 1, []⟩ [(1 : ℚ)]
      (by decide)).1,
   (setCoefficients_wrong_length_fails_state_unchanged ⟨1, [0, 0], 1, []⟩ [(1 : ℚ)]
      (by decide)).2.1⟩

/-- C9: for a fixed state, the read-only calls `GetCurrentPhase` and
`GetPhases` leave the observable state unchanged and return the same reply
when repeated. -/
theorem read_calls_deterministic_and_pure (m : ComMotionState) (q : ReadQuery) :
    (execRead m q).2 = m ∧
    (execRead (execRead m q).2 q).1 = (execRead m q).1 := by
  cases q <;> exact ⟨rfl, rfl⟩

/-- C10: the discretization helpers depend only on the total time — two
motions with equal `GetTotalTime()` give equal `GetDiscretizedGlobalTimes()`
and `GetTotalNodes()`, whatever their coefficients and phase structures. -/
theorem discretization_depends_only_on_total_time
    (m1 m2 : ComMotionState) (dt : ℚ) (h : GetTotalTime m1 = GetTotalTime m2) :
    GetDiscretizedGlobalTimesOf m1 dt = GetDiscretizedGlobalTimesOf m2 dt ∧
    GetTotalNodesOf m1 dt = GetTotalNodesOf m2 dt := by
  unfold GetTotalNodesOf GetDiscretizedGlobalTimesOf
  rw [h]
  exact ⟨rfl, rfl⟩

/-- Witness for the discretization hyperproperty: two structurally different
motions with the same total time get the same grid. -/
theorem discretization_depends_only_on_total_time_witness :
    GetTotalTime ⟨0, [], 1, []⟩ = GetTotalTime ⟨0, [], 1/2, [(1/4, 1/4)]⟩ ∧
    (GetDiscretizedGlobalTimesOf ⟨0, [], 1, []⟩ (1/5)
        = GetDiscretizedGlobalTimesOf ⟨0, [], 1/2, [(1/4, 1/4)]⟩ (1/5) ∧
      GetTotalNodesOf ⟨0, [], 1, []⟩ (1/5)
        = GetTotalNodesOf ⟨0, [], 1/2, [(1/4, 1/4)]⟩ (1/5)) := by
  have h : GetTotalTime (⟨0, [], 1, []⟩ : ComMotionState)
      = GetTotalTime ⟨0, [], 1/2, [(1/4, 1/4)]⟩ := by
    norm_num [GetTotalTime, segments, stepSegments]
  exact ⟨h, discretization_depends_only_on_total_time _ _ _ h⟩

theorem polyEval_replicate_zero (n : ℕ) (t : ℚ) :
    polyEval (List.replicate n 0) t = 0 := by
  induction n with
  | zero => rfl
  | succ n ih => simp [List.replicate_succ, polyEval, ih]

theorem polyDerivAux_replicate_zero (n : ℕ) (c : ℚ) :
    polyDerivAux c (List.replicate n 0) = List.replicate n 0 := by
  induction n generalizing c with
  | zero => rfl
  | succ n ih => simp [List.replicate_succ, polyDerivAux, ih]

theorem polyEval_const_pad (c : ℚ) (j : ℕ) (t : ℚ) :
    polyEval (c :: List.replicate j 0) t = c := by
  simp [polyEval, polyEval_replicate_zero]

theorem polyDeriv_const_pad (c : ℚ) (j : ℕ) :
    polyDeriv (c :: List.replicate j 0) = List.replicate j 0 := by
  simp [polyDeriv, polyDerivAux_replicate_zero]

theorem setEndAtStart_take_length (m : ComMotionState) (c : ℚ) :
    ((c :: List.replicate (m.k - 1) 0).take m.k).length = m.k := by
  simp
  omega

theorem setEndAtStart_coeffX (m : ComMotionState) :
    coeffX (SetEndAtStart m).state
      = (polyEval (coeffX m) 0 :: List.replicate (m.k - 1) 0).take m.k := by
  show (((polyEval (coeffX m) 0 :: List.replicate (m.k - 1) 0).take m.k ++
      (polyEval (coeffY m) 0 :: List.replicate (m.k - 1) 0).take m.k).take m.k) = _
  rw [List.take_left' (setEndAtStart_take_length m _)]

theorem setEndAtStart_coeffY (m : ComMotionState) :
    coeffY (SetEndAtStart m).state
      = (polyEval (coeffY m) 0 :: List.replicate (m.k - 1) 0).take m.k := by
  show ((((polyEval (coeffX m) 0 :: List.replicate (m.k - 1) 0).take m.k ++
      (polyEval (coeffY m) 0 :: List.replicate (m.k - 1) 0).take m.k).drop m.k).take m.k) = _
  rw [List.drop_left' (setEndAtStart_take_length m _),
    List.take_of_length_le (le_of_eq (setEndAtStart_take_length m _))]

/-- C5: after `SetEndAtStart()` the call has succeeded and the motion ends,
at `T = GetTotalTime()`, at its start position with zero velocity.  In the
polynomial representation the constraint is always satisfiable, so the
underconstrained failure case never arises. -/
theorem setEndAtStart_ends_at_start_position_zero_velocity (m : ComMotionState) :
    (SetEndAtStart m).err = none ∧
    (GetCom (SetEndAtStart m).state (GetTotalTime (SetEndAtStart m).state)).p
      = (GetCom (SetEndAtStart m).state 0).p ∧
    (GetCom (SetEndAtStart m).state (GetTotalTime (SetEndAtStart m).state)).v = (0, 0) := by
  have hX := setEndAtStart_coeffX m
  have hY := setEndAtStart_coeffY m
  refine ⟨rfl, ?_, ?_⟩ <;>
  · rcases hk : m.k with _ | j
    · rw [hk] at hX hY
      simp only [List.take_zero] at hX hY
      simp [GetCom, hX, hY, polyEval, polyDeriv]
    · rw [hk] at hX hY
      simp only [List.take_succ_cons, Nat.succ_sub_one, List.take_replicate,
        min_self] at hX hY
      simp [GetCom, hX, hY, polyEval_const_pad, polyDeriv_const_pad,
        polyEval_replicate_zero]

theorem ceil_eleven_quarters : (⌈(11 / 20 : ℚ) / (1 / 5)⌉ : ℤ) = 3 := by
  rw [show (11 / 20 : ℚ) / (1 / 5) = 11 / 4 by norm_num, Int.ceil_eq_iff]
  norm_num

/-- C2 counterexample: at `T = 0.55`, `Δt = 0.2` the grid is
`[0, 0.2, 0.4, 0.55]` with `4` nodes, while `⌊T/Δt⌋ + 1 = 3` — the
floor-based node-count formula is false. -/
theorem totalNodes_floor_formula_counterexample :
    ¬ GetTotalNodes (11 / 20) (1 / 5)
        = Int.toNat ⌊(11 / 20 : ℚ) / (1 / 5)⌋ + 1 := by
  have hf : (⌊(11 / 20 : ℚ) / (1 / 5)⌋ : ℤ) = 2 := by
    rw [show (11 / 20 : ℚ) / (1 / 5) = 11 / 4 by norm_num, Int.floor_eq_iff]
    norm_num
  have hn : GetTotalNodes (11 / 20) (1 / 5) = 4 := by
    simp only [GetTotalNodes, GetDiscretizedGlobalTimes, List.length_append,
      List.length_map, List.length_range, List.length_singleton, ceil_eleven_quarters]
    decide
  rw [hn, hf]
  decide

/-- C2 amended: `GetTotalNodes()` returns `⌈T/Δt⌉ + 1` (which agrees with
`⌊T/Δt⌋ + 1` exactly when `Δt` divides `T`, in particular at both quoted
scenarios) and equals the length of `GetDiscretizedGlobalTimes()`; `T = 0`
yields the single-node grid `[0]`, and `T = 1.0` with `Δt = 0.2` yields `6`
nodes. -/
theorem totalNodes_ceil_formula_and_length (T dt : ℚ) (hT : 0 ≤ T) (hdt : 0 < dt) :
    GetTotalNodes T dt = Int.toNat ⌈T / dt⌉ + 1 ∧
    GetTotalNodes T dt = (GetDiscretizedGlobalTimes T dt).length ∧
    GetDiscretizedGlobalTimes 0 dt = [0] ∧
    GetTotalNodes 0 dt = 1 ∧
    GetTotalNodes 1 (1 / 5) = 6 := by
  have h5 : (⌈(1 : ℚ) / (1 / 5)⌉ : ℤ) = 5 := by
    rw [show (1 : ℚ) / (1 / 5) = 5 by norm_num, Int.ceil_eq_iff]
    norm_num
  refine ⟨?_, rfl, ?_, ?_, ?_⟩
  · simp only [GetTotalNodes, GetDiscretizedGlobalTimes, List.length_append,
      List.length_map, List.length_range, List.length_singleton]
  · simp only [GetDiscretizedGlobalTimes, zero_div, Int.ceil_zero, Int.toNat_zero,
      List.range_zero, List.map_nil, List.nil_append]
  · simp only [GetTotalNodes, GetDiscretizedGlobalTimes, zero_div, Int.ceil_zero,
      Int.toNat_zero, List.range_zero, List.map_nil, List.nil_append,
      List.length_singleton]
  · simp only [GetTotalNodes, GetDiscretizedGlobalTimes, List.length_append,
      List.length_map, List.length_range, List.length_singleton, h5]
    decide

/-- Witness for the amended node-count theorem at `T = 0.55`, `Δt = 0.2`. -/
theorem totalNodes_ceil_formula_and_length_witness :
    (0 : ℚ) ≤ 11 / 20 ∧ (0 : ℚ) < 1 / 5 ∧
    GetTotalNodes (11 / 20) (1 / 5) = Int.toNat ⌈(11 / 20 : ℚ) / (1 / 5)⌉ + 1 :=
  ⟨by norm_num, by norm_num,
    (totalNodes_ceil_formula_and_length (11 / 20) (1 / 5) (by norm_num) (by norm_num)).1⟩

theorem discretized_length (T dt : ℚ) :
    (GetDiscretizedGlobalTimes T dt).length = Int.toNat ⌈T / dt⌉ + 1 := by
  simp only [GetDiscretizedGlobalTimes, List.length_append, List.length_map,
    List.length_range, List.length_singleton]

theorem discretized_getElem?_lt (T dt : ℚ) (i : ℕ) (h : i < Int.toNat ⌈T / dt⌉) :
    (GetDiscretizedGlobalTimes T dt)[i]? = some ((i : ℚ) * dt) := by
  simp only [GetDiscretizedGlobalTimes]
  rw [List.getElem?_append, if_pos (by simpa using h)]
  simp [List.getElem?_range, h]

theorem discretized_getElem?_ceil (T dt : ℚ) :
    (GetDiscretizedGlobalTimes T dt)[Int.toNat ⌈T / dt⌉]? = some T := by
  simp only [GetDiscretizedGlobalTimes]
  rw [List.getElem?_append_right (by simp)]
  simp

theorem le_toNat_ceil_mul (T dt : ℚ) (hT : 0 ≤ T) (hdt : 0 < dt) :
    T ≤ (Int.toNat ⌈T / dt⌉ : ℚ) * dt := by
  have h0 : (0 : ℤ) ≤ ⌈T / dt⌉ := Int.ceil_nonneg (div_nonneg hT hdt.le)
  have h1 : T / dt ≤ ((⌈T / dt⌉ : ℤ) : ℚ) := Int.le_ceil _
  rw [div_le_iff₀ hdt] at h1
  calc T ≤ ((⌈T / dt⌉ : ℤ) : ℚ) * dt := h1
    _ = ((Int.toNat ⌈T / dt⌉ : ℕ) : ℚ) * dt := by
        congr 1
        exact_mod_cast congrArg (fun z : ℤ => (z : ℚ)) (Int.toNat_of_nonneg h0).symm

/-- C1: for all `T ≥ 0` and `Δt > 0` the discretized global times start at
`0`, end at `T`, every interior gap equals `Δt`, the final gap is at most
`Δt`, and the `T = 0.55`, `Δt = 0.2` scenario produces
`[0, 0.2, 0.4, 0.55]`. -/
theorem discretizedGlobalTimes_coverage (T dt : ℚ) (hT : 0 ≤ T) (hdt : 0 < dt) :
    (GetDiscretizedGlobalTimes T dt).head? = some 0 ∧
    (GetDiscretizedGlobalTimes T dt).getLast? = some T ∧
    (∀ i : ℕ, ∀ x y : ℚ, (GetDiscretizedGlobalTimes T dt)[i]? = some x →
      (GetDiscretizedGlobalTimes T dt)[i + 1]? = some y →
      i + 2 < (GetDiscretizedGlobalTimes T dt).length → y - x = dt) ∧
    (∀ x y : ℚ,
      (GetDiscretizedGlobalTimes T dt)[(GetDiscretizedGlobalTimes T dt).length - 1]? = some x →
      (GetDiscretizedGlobalTimes T dt)[(GetDiscretizedGlobalTimes T dt).length - 2]? = some y →
      2 ≤ (GetDiscretizedGlobalTimes T dt).length → x - y ≤ dt) ∧
    GetDiscretizedGlobalTimes (11 / 20) (1 / 5) = [0, 1 / 5, 2 / 5, 11 / 20] := by
  have hlen := discretized_length T dt
  refine ⟨?_, ?_, ?_, ?_, ?_⟩
  · rcases Nat.eq_zero_or_pos (Int.toNat ⌈T / dt⌉) with h0 | hpos
    · have hc : ⌈T / dt⌉ ≤ 0 := Int.toNat_eq_zero.mp h0
      have h2 : T / dt ≤ ((0 : ℤ) : ℚ) := Int.ceil_le.mp hc
      have h3 : 0 ≤ T / dt := div_nonneg hT hdt.le
      have h4 : T / dt = 0 := le_antisymm (by exact_mod_cast h2) h3
      have hT0 : T = 0 := by
        rcases div_eq_zero_iff.mp h4 with h | h
        · exact h
        · exact absurd h (ne_of_gt hdt)
      simp [GetDiscretizedGlobalTimes, h0, hT0]
    · obtain ⟨m, hm⟩ := Nat.exists_eq_succ_of_ne_zero (Nat.pos_iff_ne_zero.mp hpos)
      simp [GetDiscretizedGlobalTimes, hm, List.range_succ_eq_map]
  · simp only [GetDiscretizedGlobalTimes]
    exact List.getLast?_concat _
  · intro i x y hx hy hi
    have hi1 : i + 1 < Int.toNat ⌈T / dt⌉ := by omega
    rw [discretized_getElem?_lt T dt i (by omega)] at hx
    rw [discretized_getElem?_lt T dt (i + 1) hi1] at hy
    obtain rfl : (i : ℚ) * dt = x := Option.some.inj hx
    obtain rfl : ((i : ℕ) + 1 : ℚ) * dt = y := by
      have := Option.some.inj hy
      push_cast at this ⊢
      linarith
    ring
  · intro x y hx hy hl
    have hM1 : 1 ≤ Int.toNat ⌈T / dt⌉ := by omega
    have e1 : (GetDiscretizedGlobalTimes T dt).length - 1 = Int.toNat ⌈T / dt⌉ := by omega
    have e2 : (GetDiscretizedGlobalTimes T dt).length - 2 = Int.toNat ⌈T / dt⌉ - 1 := by
      omega
    rw [e1, discretized_getElem?_ceil T dt] at hx
    rw [e2, discretized_getElem?_lt T dt _ (by omega)] at hy
    obtain rfl : T = x := Option.some.inj hx
    obtain rfl : ((Int.toNat ⌈T / dt⌉ - 1 : ℕ) : ℚ) * dt = y := Option.some.inj hy
    have hcast : ((Int.toNat ⌈T / dt⌉ - 1 : ℕ) : ℚ) = (Int.toNat ⌈T / dt⌉ : ℚ) - 1 := by
      push_cast [hM1]
      ring
    have hle := le_toNat_ceil_mul T dt hT hdt
    rw [hcast]
    nlinarith
  · simp only [GetDiscretizedGlobalTimes, ceil_eleven_quarters]
    rw [show Int.toNat 3 = 3 from rfl]
    rw [List.range_succ, List.range_succ, List.range_succ, List.range_zero]
    norm_num

/-- Witness for the discretization-coverage theorem at `T = 0.55`,
`Δt = 0.2`. -/
theorem discretizedGlobalTimes_coverage_witness :
    (0 : ℚ) ≤ 11 / 20 ∧ (0 : ℚ) < 1 / 5 ∧
    (GetDiscretizedGlobalTimes (11 / 20) (1 / 5)).head? = some 0 ∧
    (GetDiscretizedGlobalTimes (11 / 20) (1 / 5)).getLast? = some (11 / 20) :=
  ⟨by norm_num, by norm_num,
    (discretizedGlobalTimes_coverage (11 / 20) (1 / 5) (by norm_num) (by norm_num)).1,
    (discretizedGlobalTimes_coverage (11 / 20) (1 / 5) (by norm_num) (by norm_num)).2.1⟩

theorem stepSegments_filter_step_ids (l : List (ℚ × ℚ)) :
    ∀ i : ℕ, (((stepSegments i l).map Prod.fst).filter
        (fun p => p.type_ == PhaseType.kStepPhase)).map PhaseInfo.id_
      = (List.range l.length).map (fun j : ℕ => ((i + j : ℕ) : ℤ)) := by
  induction l with
  | nil => intro i; rfl
  | cons d rest ih =>
    intro i
    simp only [stepSegments, List.map_cons, List.filter_cons, List.length_cons]
    rw [if_pos (by decide), if_neg (by decide)]
    simp only [List.map_cons, ih (i + 1)]
    rw [List.range_succ_eq_map, List.map_cons, List.map_map]
    norm_num
    intro a ha
    ring

theorem stepSegments_head_type (l : List (ℚ × ℚ)) (i : ℕ) :
    ∀ p ∈ ((stepSegments i l).map Prod.fst).head?, p.type_ = PhaseType.kStepPhase := by
  cases l with
  | nil => simp [stepSegments]
  | cons d rest => simp [stepSegments]

theorem stepSegments_chain_ne (l : List (ℚ × ℚ)) :
    ∀ i : ℕ, List.Chain' (fun a b => a ≠ b) ((stepSegments i l).map Prod.fst) := by
  induction l with
  | nil => intro i; simp [stepSegments]
  | cons d rest ih =>
    intro i
    simp only [stepSegments, List.map_cons]
    rw [List.chain'_cons]
    refine ⟨by simp, ?_⟩
    rw [List.chain'_cons']
    refine ⟨?_, ih (i + 1)⟩
    intro c hc heq
    have htype := stepSegments_head_type rest (i + 1) c hc
    rw [← heq] at htype
    simp at htype

theorem stepSegments_head_id (l : List (ℚ × ℚ)) (i : ℕ) :
    ∀ x ∈ (((stepSegments i l).map Prod.fst).map PhaseInfo.id_).head?, x = (i : ℤ) := by
  cases l with
  | nil => simp [stepSegments]
  | cons d rest => simp [stepSegments]

theorem stepSegments_chain_le (l : List (ℚ × ℚ)) :
    ∀ i : ℕ, List.Chain' (fun a b : ℤ => a ≤ b)
      (((stepSegments i l).map Prod.fst).map PhaseInfo.id_) := by
  induction l with
  | nil => intro i; simp [stepSegments]
  | cons d rest ih =>
    intro i
    simp only [stepSegments, List.map_cons]
    rw [List.chain'_cons]
    refine ⟨le_refl _, ?_⟩
    rw [List.chain'_cons']
    refine ⟨?_, ih (i + 1)⟩
    intro x hx
    have hx' := stepSegments_head_id rest (i + 1) x hx
    rw [hx']
    exact_mod_cast Nat.le_succ i

/-- C6: `GetPhases()` never repeats a phase in adjacent positions, the ids
of its `Step` entries are exactly the contiguous integers `0, 1, 2, …`
(one per step, no gaps or repeats), and ids are monotonically
non-decreasing across the whole sequence. -/
theorem phases_no_adjacent_dup_step_ids_contiguous_monotone (m : ComMotionState) :
    List.Chain' (fun a b => a ≠ b) (GetPhases m) ∧
    ((GetPhases m).filter (fun p => p.type_ == PhaseType.kStepPhase)).map PhaseInfo.id_
      = (List.range m.steps.length).map (fun j : ℕ => (j : ℤ)) ∧
    List.Chain' (fun a b : ℤ => a ≤ b) ((GetPhases m).map PhaseInfo.id_) := by
  refine ⟨?_, ?_, ?_⟩
  · simp only [GetPhases, segments, List.map_cons]
    rw [List.chain'_cons']
    refine ⟨?_, stepSegments_chain_ne m.steps 0⟩
    intro c hc heq
    have htype := stepSegments_head_type m.steps 0 c hc
    rw [← heq] at htype
    simp at htype
  · simp only [GetPhases, segments, List.map_cons, List.filter_cons]
    rw [if_neg (by decide)]
    rw [stepSegments_filter_step_ids m.steps 0]
    exact List.map_congr_left (fun j _ => by omega)
  · simp only [GetPhases, segments, List.map_cons]
    rw [List.chain'_cons']
    refine ⟨?_, stepSegments_chain_le m.steps 0⟩
    intro x hx
    have hx' := stepSegments_head_id m.steps 0 x hx
    rw [hx']
    norm_num

theorem startTime_zero (segs : List (PhaseInfo × ℚ)) : startTime segs 0 = 0 := rfl

theorem startTime_cons_succ (a : PhaseInfo × ℚ) (l : List (PhaseInfo × ℚ)) (j : ℕ) :
    startTime (a :: l) (j + 1) = a.2 + startTime l j := by
  simp [startTime, List.take_succ_cons]

theorem startTime_nonneg (l : List (PhaseInfo × ℚ)) (h : ∀ d ∈ l, 0 ≤ d.2) (j : ℕ) :
    0 ≤ startTime l j := by
  apply List.sum_nonneg
  intro x hx
  simp only [List.mem_map] at hx
  obtain ⟨pr, hpr, rfl⟩ := hx
  exact h pr (List.mem_of_mem_take hpr)

theorem inSpanOf_cons_succ (a : PhaseInfo × ℚ) (l : List (PhaseInfo × ℚ)) (j : ℕ) (t : ℚ) :
    inSpanOf (a :: l) (j + 1) t ↔ inSpanOf l j (t - a.2) := by
  simp only [inSpanOf, startTime_cons_succ, List.length_cons]
  constructor
  · rintro ⟨h1, h2 | ⟨h2, h3⟩⟩
    · exact ⟨by linarith, Or.inl (by linarith)⟩
    · exact ⟨by linarith, Or.inr ⟨by omega, by linarith⟩⟩
  · rintro ⟨h1, h2 | ⟨h2, h3⟩⟩
    · exact ⟨by linarith, Or.inl (by linarith)⟩
    · exact ⟨by linarith, Or.inr ⟨by omega, by linarith⟩⟩

theorem stepSegments_duration_pos (l : List (ℚ × ℚ)) :
    ∀ i : ℕ, (∀ s ∈ l, 0 < s.1 ∧ 0 < s.2) → ∀ x ∈ stepSegments i l, 0 < x.2 := by
  induction l with
  | nil =>
    intro i h x hx
    simp [stepSegments] at hx
  | cons d rest ih =>
    intro i h x hx
    simp only [stepSegments, List.mem_cons] at hx
    rcases hx with rfl | rfl | hx
    · exact (h d (List.mem_cons_self d rest)).1
    · exact (h d (List.mem_cons_self d rest)).2
    · exact ih (i + 1) (fun s hs => h s (List.mem_cons_of_mem d hs)) x hx

theorem phaseAt_unique_span (segs : List (PhaseInfo × ℚ)) :
    ∀ t : ℚ, segs ≠ [] → (∀ d ∈ segs, 0 < d.2) → 0 ≤ t →
      t ≤ ((segs.map Prod.snd)).sum →
      ∃ i, i < segs.length ∧ (segs.map Prod.fst)[i]? = some (phaseAt segs t) ∧
        inSpanOf segs i t ∧ ∀ j, j < segs.length → inSpanOf segs j t → j = i := by
  induction segs with
  | nil => intro t h; exact absurd rfl h
  | cons a l ih =>
    intro t _ hpos ht0 htT
    obtain ⟨p, d⟩ := a
    cases l with
    | nil =>
      refine ⟨0, by simp, ?_, ?_, ?_⟩
      · simp [phaseAt]
      · refine ⟨by simpa [startTime_zero] using ht0, Or.inr ⟨by simp, ?_⟩⟩
        simpa [startTime, List.take_succ_cons] using htT
      · intro j hj _
        simp only [List.length_cons, List.length_nil] at hj
        omega
    | cons b l2 =>
      by_cases hlt : t < d
      · refine ⟨0, by simp, ?_, ?_, ?_⟩
        · simp [phaseAt, hlt]
        · refine ⟨by simpa [startTime_zero] using ht0, Or.inl ?_⟩
          rw [startTime_cons_succ, startTime_zero]
          linarith
        · intro j hj hspan
          cases j with
          | zero => rfl
          | succ j' =>
            rw [inSpanOf_cons_succ] at hspan
            have h1 := hspan.1
            have h2 : 0 ≤ startTime (b :: l2) j' :=
              startTime_nonneg _ (fun x hx => (hpos x (List.mem_cons_of_mem _ hx)).le) j'
            linarith
      · push_neg at hlt
        have hne : (b :: l2) ≠ [] := by simp
        have hpos' : ∀ x ∈ (b :: l2), 0 < x.2 :=
          fun x hx => hpos x (List.mem_cons_of_mem _ hx)
        have ht0' : 0 ≤ t - d := by linarith
        have htT' : t - d ≤ ((b :: l2).map Prod.snd).sum := by
          have hsum : ((((p, d) :: b :: l2).map Prod.snd)).sum
              = d + ((b :: l2).map Prod.snd).sum := by simp
          rw [hsum] at htT
          linarith
        obtain ⟨i', hi', heq, hspan, huniq⟩ := ih (t - d) hne hpos' ht0' htT'
        have hstep : phaseAt ((p, d) :: b :: l2) t = phaseAt (b :: l2) (t - d) := by
          simp only [phaseAt]
          rw [if_neg (not_lt.mpr hlt)]
        refine ⟨i' + 1, ?_, ?_, ?_, ?_⟩
        · simp only [List.length_cons] at hi' ⊢
          omega
        · rw [hstep]
          simpa using heq
        · rw [inSpanOf_cons_succ]
          exact hspan
        · intro j hj hspanj
          cases j with
          | zero =>
            exfalso
            rcases hspanj.2 with h2 | ⟨h2, _⟩
            · rw [startTime_cons_succ, startTime_zero] at h2
              linarith
            · simp only [List.length_cons] at h2
              omega
          | succ j' =>
            rw [inSpanOf_cons_succ] at hspanj
            have hj' := huniq j' (by simp only [List.length_cons] at hj ⊢; omega) hspanj
            omega

/-- C7: for `t ∈ [0, T]` on a motion with positive phase durations,
`GetCurrentPhase(t)` is exactly the unique entry of `GetPhases()` whose
time span contains `t`; in the stance-only case the single entry
`{Stance, -1}` is returned for every `t` in range. -/
theorem currentPhase_is_unique_span_entry (m : ComMotionState) (t : ℚ)
    (hstance : 0 < m.initialStanceDuration)
    (hsteps : ∀ s ∈ m.steps, 0 < s.1 ∧ 0 < s.2)
    (ht0 : 0 ≤ t) (htT : t ≤ GetTotalTime m) :
    (∃ i, i < (GetPhases m).length ∧
      (GetPhases m)[i]? = some (GetCurrentPhase m t) ∧
      inSpanOf (segments m) i t ∧
      ∀ j, j < (GetPhases m).length → inSpanOf (segments m) j t → j = i) ∧
    (m.steps = [] → GetPhases m = [⟨PhaseType.kStancePhase, -1⟩] ∧
      GetCurrentPhase m t = ⟨PhaseType.kStancePhase, -1⟩) := by
  constructor
  · have hpos : ∀ x ∈ segments m, 0 < x.2 := by
      intro x hx
      rcases List.mem_cons.mp hx with h | h
      · rw [h]
        exact hstance
      · exact stepSegments_duration_pos m.steps 0 hsteps x h
    obtain ⟨i, hi, heq, hspan, huniq⟩ :=
      phaseAt_unique_span (segments m) t (by simp [segments]) hpos ht0 htT
    have hlen : (GetPhases m).length = (segments m).length := by
      simp [GetPhases]
    refine ⟨i, ?_, heq, hspan, ?_⟩
    · rw [hlen]
      exact hi
    · intro j hj hs
      exact huniq j (by rw [← hlen]; exact hj) hs
  · intro hempty
    constructor
    · simp [GetPhases, segments, hempty, stepSegments]
    · simp [GetCurrentPhase, segments, hempty, stepSegments, phaseAt]

/-- Witness for the phase/time-consistency theorem: the stance-only motion
of total time `1`, sampled at `t = 1/2`. -/
theorem currentPhase_is_unique_span_entry_witness :
    (1 / 2 : ℚ) ≤ GetTotalTime ⟨0, [], 1, []⟩ ∧
    (∃ i, i < (GetPhases ⟨0, [], 1, []⟩).length ∧
      (GetPhases ⟨0, [], 1, []⟩)[i]? = some (GetCurrentPhase ⟨0, [], 1, []⟩ (1 / 2)) ∧
      inSpanOf (segments ⟨0, [], 1, []⟩) i (1 / 2) ∧
      ∀ j, j < (GetPhases ⟨0, [], 1, []⟩).length →
        inSpanOf (segments ⟨0, [], 1, []⟩) j (1 / 2) → j = i) :=
  ⟨by norm_num [GetTotalTime, segments, stepSegments],
   (currentPhase_is_unique_span_entry ⟨0, [], 1, []⟩ (1 / 2) (by norm_num) (by simp)
      (by norm_num) (by norm_num [GetTotalTime, segments, stepSegments])).1⟩

end XppZmp
